import Mathlib

/-!
Shallow embedding of the `Latest<M>` single-writer multi-reader
latest-value structure of rio-thread-bench (`src/main.rs`), together with
proofs about its specified behaviour.

Modelling notes.

The Rust structure is

  struct Latest<M> { q : Vec<Arc<M>>, latest : Arc<ArcCell<M>>, index : usize }

The `ArcCell` always holds a clone of one of the pool `Arc`s, so the
published pointer is modelled as the index `latest` of the pool slot it
references.  The strong reference count of the pool `Arc` at index `i` is

  1 (the pool's own handle)
  + 1 if the `ArcCell` currently references slot `i`
  + the number of reader-side strong references to slot `i` that are still
    alive (an in-flight `LatestReader::get` holds the `Arc<M>` returned by
    `ArcCell::get` until it has finished cloning the value).

The last summand is recorded per slot in the ghost field `holds`;
`Latest.holdSnapshot` / `Latest.dropSnapshot` bracket the lifetime of such
a reader-side reference.  `Arc::get_mut` succeeds exactly when the strong
count is 1 (no weak references to pool slots are ever created), which is
`Latest.claimable`.

The `loop` in `Latest::set` has no termination bound, so `Latest.set`
takes a fuel argument bounding the number of probe attempts and returns
`none` when the loop is still spinning after that many probes.

`LatestReader` is a `Weak<ArcCell<M>>`; the only strong owner of the
`ArcCell` is the `Latest` value itself, so upgrading the weak reference
succeeds exactly while the writer is alive.  `LatestReader.get` therefore
takes the writer's state as an `Option`: `some` while the writer exists,
`none` after it has been dropped.  Readers carry no other data, so a
reader cloned before or after any event observes exactly the same thing.
-/

/-- State of the writer-owned structure `Latest<M>` from `src/main.rs`.
`q` is the pool of slot payloads, `latest` the index of the slot the
published `ArcCell` references, `index` the rotation cursor, and `holds`
the ghost per-slot count of live reader-side strong references. -/
structure Latest (M : Type) where
  q : List M
  latest : Nat
  index : Nat
  holds : List Nat
deriving DecidableEq

/-- Construction failures of `Latest::new`:
`invalidCapacity` models `debug_assert!(cap >= 2)` firing, and
`emptyPool` models `q.get(0).unwrap()` panicking when `cap = 0`. -/
inductive ConstructionError where
  | invalidCapacity
  | emptyPool
deriving DecidableEq

/-- The freshly built pool state of `Latest::new(cap)`: `cap` slots holding
the default value, the published pointer referencing slot 0, the cursor at
1, and no reader-side references. -/
def Latest.init {M : Type} [Inhabited M] (cap : Nat) : Latest M :=
  { q := List.replicate cap default
    latest := 0
    index := 1
    holds := List.replicate cap 0 }

/-- `Latest::new(cap)`.  `debugAssertions` tells whether the build keeps
`debug_assert!` checks (true in a debug build, false in a release build).
With the assertion compiled out, `cap = 0` still panics on
`q.get(0).unwrap()`, while `cap = 1` constructs successfully. -/
def Latest.new {M : Type} [Inhabited M] (debugAssertions : Bool) (cap : Nat) :
    Except ConstructionError (Latest M) :=
  if debugAssertions && decide (cap < 2) then
    Except.error ConstructionError.invalidCapacity
  else if cap == 0 then
    Except.error ConstructionError.emptyPool
  else
    Except.ok (Latest.init cap)

/-- `Latest::next_idx`: `(self.index + 1) % self.q.len()`. -/
def Latest.nextIdx {M : Type} (s : Latest M) : Nat :=
  (s.index + 1) % s.q.length

/-- Strong reference count of the pool `Arc` at slot `i`: the pool's own
handle, plus the published pointer when it references `i`, plus any live
reader-side references. -/
def Latest.refcount {M : Type} (s : Latest M) (i : Nat) : Nat :=
  1 + (if s.latest = i then 1 else 0) + s.holds.getD i 0

/-- `Arc::get_mut` on slot `i` succeeds iff the slot's strong count is
exactly 1 (pool slots never have weak references). -/
def Latest.claimable {M : Type} (s : Latest M) (i : Nat) : Bool :=
  s.refcount i == 1

/-- The probe loop of `Latest::set`: starting from `next_idx()`, try to
claim the slot there; on failure store that index into the cursor and
retry.  `fuel` bounds the number of probes; `none` means the loop is still
spinning after `fuel` probes. -/
def Latest.probe {M : Type} : Nat → Latest M → Option (Nat × Latest M)
  | 0, _ => none
  | fuel + 1, s =>
    if s.claimable s.nextIdx then some (s.nextIdx, s)
    else Latest.probe fuel { s with index := s.nextIdx }

/-- `Latest::set(msg)`: probe for an exclusively owned slot, overwrite its
value in place, and make the published pointer reference it
(`self.latest.set(new.clone())`).  The cursor is whatever the probe loop
left in it; the loop updates it only on failed probes. -/
def Latest.set {M : Type} (s : Latest M) (fuel : Nat) (msg : M) :
    Option (Latest M) :=
  match Latest.probe fuel s with
  | none => none
  | some (idx, s') => some { s' with q := s'.q.set idx msg, latest := idx }

/-- The value currently observable through the published pointer. -/
def Latest.published {M : Type} [Inhabited M] (s : Latest M) : M :=
  s.q.getD s.latest default

/-- A reader's in-flight `get` retains the strong `Arc<M>` obtained from
`ArcCell::get`; this records one such reference on the published slot. -/
def Latest.holdSnapshot {M : Type} (s : Latest M) : Latest M :=
  { s with holds := s.holds.set s.latest (s.holds.getD s.latest 0 + 1) }

/-- A reader drops the strong `Arc<M>` it was holding on slot `i`. -/
def Latest.dropSnapshot {M : Type} (s : Latest M) (i : Nat) : Latest M :=
  { s with holds := s.holds.set i (s.holds.getD i 0 - 1) }

/-- Number of distinct slots with at least one live reader-side
reference. -/
def Latest.heldSlots {M : Type} (s : Latest M) : Nat :=
  (List.range s.q.length).countP (fun i => s.holds.getD i 0 != 0)

/-- `LatestReader::get`: upgrade the weak reference to the `ArcCell`; the
sole strong owner of the cell is the writer, so the upgrade yields the
writer's state while it is alive and `none` once it has been dropped.  On
success the currently published value is cloned and returned. -/
def LatestReader.get {M : Type} [Inhabited M] (writer : Option (Latest M)) :
    Option M :=
  match writer with
  | some s => some s.published
  | none => none

/-- Run `set` once per message, in order (fails if some `set` exhausts its
fuel). -/
def Latest.runSets {M : Type} (fuel : Nat) : Latest M → List M → Option (Latest M)
  | s, [] => some s
  | s, m :: rest =>
    match s.set fuel m with
    | none => none
    | some s' => Latest.runSets fuel s' rest

/-- An interleaving step: either the writer publishes the next value or
the single reader performs a `get`. -/
inductive Ev (M : Type) where
  | set (v : M)
  | get
deriving DecidableEq

/-- The values the writer publishes along a schedule, in order. -/
def evVals {M : Type} : List (Ev M) → List M
  | [] => []
  | Ev.set v :: rest => v :: evVals rest
  | Ev.get :: rest => evVals rest

/-- Execute a schedule of writer publishes and reader gets, starting with
`k` publishes already performed; each `get` records the pair
(number of publishes so far, value observed). -/
def runEvs {M : Type} [Inhabited M] (fuel : Nat) :
    List (Ev M) → Latest M → Nat → Option (List (Nat × M))
  | [], _, _ => some []
  | Ev.set v :: rest, s, k =>
    match s.set fuel v with
    | none => none
    | some s' => runEvs fuel rest s' (k + 1)
  | Ev.get :: rest, s, k =>
    match runEvs fuel rest s k with
    | none => none
    | some obs => some ((k, s.published) :: obs)

/-! ### Basic list helpers -/

lemma aux_getD_set_eq {α : Type} :
    ∀ (l : List α) (i : Nat) (a d : α), i < l.length → (l.set i a).getD i d = a := by
  intro l
  induction l with
  | nil => intro i a d h; simp at h
  | cons x xs ih =>
    intro i a d h
    cases i with
    | zero => rfl
    | succ j =>
      simp only [List.set, List.getD, List.get?]
      exact ih j a d (by simpa using h)

lemma aux_getD_set_ne {α : Type} :
    ∀ (l : List α) (i j : Nat) (a d : α), i ≠ j → (l.set i a).getD j d = l.getD j d := by
  intro l
  induction l with
  | nil => intro i j a d _; simp [List.set]
  | cons x xs ih =>
    intro i j a d h
    cases i with
    | zero =>
      cases j with
      | zero => exact absurd rfl h
      | succ j' => rfl
    | succ i' =>
      cases j with
      | zero => rfl
      | succ j' =>
        simp only [List.set, List.getD, List.get?]
        exact ih i' j' a d (by omega)

lemma aux_getD_replicate {α : Type} :
    ∀ (n i : Nat) (a d : α), (List.replicate n a).getD i d = if i < n then a else d := by
  intro n
  induction n with
  | zero => intro i a d; simp [List.replicate]
  | succ m ih =>
    intro i a d
    cases i with
    | zero => simp [List.replicate]
    | succ j =>
      simp only [List.replicate]
      show (List.replicate m a).getD j d = if j + 1 < m + 1 then a else d
      rw [ih j a d]
      by_cases h : j < m
      · simp [h, show j + 1 < m + 1 from by omega]
      · simp [h, show ¬ (j + 1 < m + 1) from by omega]

lemma aux_countP_or_le {α : Type} (p r : α → Bool) :
    ∀ l : List α, l.countP (fun a => p a || r a) ≤ l.countP p + l.countP r := by
  intro l
  induction l with
  | nil => simp [List.countP_nil]
  | cons x xs ih =>
    simp only [List.countP_cons]
    cases hp : p x <;> cases hr : r x <;> simp [hp, hr] <;> omega

lemma aux_succ_mod_ne {n i : Nat} (hn : 2 ≤ n) (h : i < n) : (i + 1) % n ≠ i := by
  rcases Nat.lt_or_ge (i + 1) n with h1 | h1
  · rw [Nat.mod_eq_of_lt h1]; omega
  · have hi : i + 1 = n := by omega
    rw [hi, Nat.mod_self]
    omega

/-! ### Probe loop lemmas -/

lemma probe_succ {M : Type} (fuel : Nat) (s : Latest M) :
    Latest.probe (fuel + 1) s =
      if s.claimable s.nextIdx then some (s.nextIdx, s)
      else Latest.probe fuel { s with index := s.nextIdx } := rfl

lemma claimable_update_index {M : Type} (s : Latest M) (j i : Nat) :
    ({ s with index := j } : Latest M).claimable i = s.claimable i := rfl

lemma claimable_iff {M : Type} (s : Latest M) (i : Nat) :
    s.claimable i = true ↔ s.latest ≠ i ∧ s.holds.getD i 0 = 0 := by
  unfold Latest.claimable Latest.refcount
  by_cases h : s.latest = i
  · simp [h]
    omega
  · simp [h]

lemma probe_spec {M : Type} :
    ∀ (fuel : Nat) (s s' : Latest M) (idx : Nat),
      Latest.probe fuel s = some (idx, s') →
      s'.q = s.q ∧ s'.latest = s.latest ∧ s'.holds = s.holds ∧
        s.claimable idx = true := by
  intro fuel
  induction fuel with
  | zero => intro s s' idx h; simp [Latest.probe] at h
  | succ f ih =>
    intro s s' idx h
    rw [probe_succ] at h
    by_cases hc : s.claimable s.nextIdx
    · rw [if_pos hc] at h
      have h' : (s.nextIdx, s) = (idx, s') := Option.some_injective _ h
      have h1 : s.nextIdx = idx := congrArg Prod.fst h'
      have h2 : s = s' := congrArg Prod.snd h'
      subst h2
      exact ⟨rfl, rfl, rfl, h1 ▸ hc⟩
    · rw [if_neg hc] at h
      obtain ⟨h1, h2, h3, h5⟩ := ih _ _ _ h
      refine ⟨h1, h2, h3, ?_⟩
      rw [← claimable_update_index s s.nextIdx idx]
      exact h5

lemma set_spec {M : Type} (s : Latest M) (fuel : Nat) (msg : M) (s1 : Latest M)
    (h : s.set fuel msg = some s1) :
    ∃ idx s', Latest.probe fuel s = some (idx, s') ∧
      s1 = { s' with q := s'.q.set idx msg, latest := idx } := by
  unfold Latest.set at h
  cases hp : Latest.probe fuel s with
  | none => rw [hp] at h; exact absurd h (by simp)
  | some r =>
    obtain ⟨idx, s'⟩ := r
    rw [hp] at h
    refine ⟨idx, s', rfl, ?_⟩
    exact (Option.some_injective _ h).symm

lemma set_succeeds {M : Type} [Inhabited M] (s : Latest M) (fuel : Nat) (msg : M)
    (hcap : 2 ≤ s.q.length) (hholds : s.holds = List.replicate s.q.length 0)
    (hfuel : 2 ≤ fuel) :
    ∃ s1, s.set fuel msg = some s1 ∧ s1.q.length = s.q.length ∧
      s1.holds = s.holds ∧ s1.latest < s1.q.length ∧ s1.published = msg := by
  obtain ⟨f, rfl⟩ : ∃ f, fuel = f + 2 := ⟨fuel - 2, by omega⟩
  have hlen0 : 0 < s.q.length := by omega
  have hhz : ∀ i, s.holds.getD i 0 = 0 := by
    intro i
    rw [hholds, aux_getD_replicate]
    split <;> rfl
  have hidx0lt : s.nextIdx < s.q.length := Nat.mod_lt _ hlen0
  by_cases hc : s.claimable s.nextIdx
  · have hprobe : Latest.probe (f + 2) s = some (s.nextIdx, s) := by
      rw [probe_succ, if_pos hc]
    refine ⟨{ s with q := s.q.set s.nextIdx msg, latest := s.nextIdx }, ?_, ?_, rfl, ?_, ?_⟩
    · unfold Latest.set
      rw [hprobe]
    · exact List.length_set s.q s.nextIdx msg
    · simpa [List.length_set] using hidx0lt
    · unfold Latest.published
      exact aux_getD_set_eq s.q s.nextIdx msg default hidx0lt
  · have hlat : s.latest = s.nextIdx := by
      by_contra hne
      exact hc ((claimable_iff s s.nextIdx).mpr ⟨hne, hhz s.nextIdx⟩)
    set s2 : Latest M := { s with index := s.nextIdx } with hs2
    have hlen2 : s2.q.length = s.q.length := rfl
    have hidx1 : s2.nextIdx = (s.nextIdx + 1) % s.q.length := rfl
    have hidx1lt : s2.nextIdx < s.q.length := by
      rw [hidx1]; exact Nat.mod_lt _ hlen0
    have hne1 : s2.nextIdx ≠ s.nextIdx := by
      rw [hidx1]
      exact aux_succ_mod_ne hcap hidx0lt
    have hc1 : s.claimable s2.nextIdx = true :=
      (claimable_iff s s2.nextIdx).mpr ⟨by rw [hlat]; exact fun h => hne1 h.symm, hhz _⟩
    have hprobe : Latest.probe (f + 2) s = some (s2.nextIdx, s2) := by
      rw [probe_succ, if_neg hc, ← hs2, probe_succ,
        if_pos (by rw [hs2, claimable_update_index]; exact hc1)]
    refine ⟨{ s2 with q := s2.q.set s2.nextIdx msg, latest := s2.nextIdx }, ?_, ?_, rfl, ?_, ?_⟩
    · unfold Latest.set
      rw [hprobe]
    · exact List.length_set s.q s2.nextIdx msg
    · simpa [List.length_set] using hidx1lt
    · unfold Latest.published
      exact aux_getD_set_eq s.q s2.nextIdx msg default hidx1lt

lemma probe_reaches {M : Type} :
    ∀ (fuel k : Nat) (s : Latest M),
      1 ≤ k → k ≤ fuel → s.claimable ((s.index + k) % s.q.length) = true →
      ∃ r, Latest.probe fuel s = some r := by
  intro fuel
  induction fuel with
  | zero => intro k s hk hkf _; omega
  | succ f ih =>
    intro k s hk hkf hc
    by_cases h0 : s.claimable s.nextIdx
    · exact ⟨(s.nextIdx, s), by rw [probe_succ, if_pos h0]⟩
    · rcases Nat.eq_or_lt_of_le hk with h1 | h1
      · exfalso
        apply h0
        have heq : s.nextIdx = (s.index + k) % s.q.length := by
          unfold Latest.nextIdx
          rw [← h1]
        rw [heq]
        exact hc
      · have hcl : ({ s with index := s.nextIdx } : Latest M).claimable
            ((({ s with index := s.nextIdx } : Latest M).index + (k - 1)) %
              ({ s with index := s.nextIdx } : Latest M).q.length) = true := by
          rw [claimable_update_index]
          show s.claimable (((s.index + 1) % s.q.length + (k - 1)) % s.q.length) = true
          have hstep : ((s.index + 1) % s.q.length + (k - 1)) % s.q.length
              = (s.index + k) % s.q.length := by
            rw [Nat.mod_add_mod]
            congr 1
            omega
          rw [hstep]
          exact hc
        obtain ⟨r, hr⟩ := ih (k - 1) { s with index := s.nextIdx } (by omega) (by omega) hcl
        exact ⟨r, by rw [probe_succ, if_neg h0]; exact hr⟩

lemma exists_step_to (cap i idx0 : Nat) (hcap : 0 < cap) (hi : i < cap) :
    ∃ k, 1 ≤ k ∧ k ≤ cap ∧ (idx0 + k) % cap = i := by
  have hr : idx0 % cap < cap := Nat.mod_lt _ hcap
  have hdiv : cap * (idx0 / cap) + idx0 % cap = idx0 := Nat.div_add_mod idx0 cap
  by_cases h : idx0 % cap < i
  · refine ⟨i - idx0 % cap, by omega, by omega, ?_⟩
    have heq : idx0 + (i - idx0 % cap) = cap * (idx0 / cap) + i := by omega
    rw [heq, Nat.mul_add_mod, Nat.mod_eq_of_lt hi]
  · refine ⟨cap + i - idx0 % cap, by omega, by omega, ?_⟩
    have hms : cap * (idx0 / cap + 1) = cap * (idx0 / cap) + cap := Nat.mul_succ cap _
    have heq : idx0 + (cap + i - idx0 % cap) = cap * (idx0 / cap + 1) + i := by omega
    rw [heq, Nat.mul_add_mod, Nat.mod_eq_of_lt hi]

lemma exists_claimable {M : Type} (s : Latest M) (h : s.heldSlots + 2 ≤ s.q.length) :
    ∃ i, i < s.q.length ∧ s.claimable i = true := by
  by_contra hno
  push_neg at hno
  have hall : ∀ i ∈ List.range s.q.length,
      ((i == s.latest) || (s.holds.getD i 0 != 0)) = true := by
    intro i hi
    have hlt : i < s.q.length := List.mem_range.mp hi
    have hcf : s.claimable i = false := by
      cases hcl : s.claimable i
      · rfl
      · exact absurd hcl (hno i hlt)
    have hnand : ¬ (s.latest ≠ i ∧ s.holds.getD i 0 = 0) := by
      intro hand
      rw [(claimable_iff s i).mpr hand] at hcf
      exact Bool.noConfusion hcf
    rcases not_and_or.mp hnand with h1 | h1
    · have heq : (i == s.latest) = true := beq_iff_eq.mpr (not_not.mp h1).symm
      rw [heq, Bool.true_or]
    · have hne : (s.holds.getD i 0 != 0) = true := bne_iff_ne.mpr h1
      rw [hne, Bool.or_true]
  have hlen : (List.range s.q.length).countP
      (fun i => (i == s.latest) || (s.holds.getD i 0 != 0)) = s.q.length := by
    have hl := List.countP_eq_length.mpr hall
    simpa [List.length_range] using hl
  have hle : (List.range s.q.length).countP
        (fun i => (i == s.latest) || (s.holds.getD i 0 != 0))
      ≤ (List.range s.q.length).countP (fun i => i == s.latest)
        + (List.range s.q.length).countP (fun i => s.holds.getD i 0 != 0) :=
    aux_countP_or_le _ _ _
  have hcount1 : (List.range s.q.length).countP (fun i => i == s.latest) ≤ 1 := by
    have hnd := List.nodup_range s.q.length
    have hc := (List.nodup_iff_count_le_one.mp hnd) s.latest
    simpa [List.count] using hc
  unfold Latest.heldSlots at h
  omega

lemma runSets_spec {M : Type} [Inhabited M] (fuel : Nat) (hfuel : 2 ≤ fuel) :
    ∀ (msgs : List M) (v : M) (s : Latest M),
      2 ≤ s.q.length → s.holds = List.replicate s.q.length 0 →
      ∃ s1, Latest.runSets fuel s (msgs ++ [v]) = some s1 ∧ s1.published = v := by
  intro msgs
  induction msgs with
  | nil =>
    intro v s hcap hholds
    obtain ⟨s1, hset, _, _, _, hpub⟩ := set_succeeds s fuel v hcap hholds hfuel
    refine ⟨s1, ?_, hpub⟩
    show Latest.runSets fuel s (v :: []) = some s1
    simp only [Latest.runSets, hset]
  | cons m rest ih =>
    intro v s hcap hholds
    obtain ⟨s', hset, hlen, hh, _, _⟩ := set_succeeds s fuel m hcap hholds hfuel
    have hcap' : 2 ≤ s'.q.length := by omega
    have hholds' : s'.holds = List.replicate s'.q.length 0 := by rw [hh, hlen, hholds]
    obtain ⟨s1, hrun, hpub⟩ := ih v s' hcap' hholds'
    refine ⟨s1, ?_, hpub⟩
    show Latest.runSets fuel s (m :: (rest ++ [v])) = some s1
    simp only [Latest.runSets, hset]
    exact hrun

lemma runEvs_spec {M : Type} [Inhabited M] (fuel : Nat) (hfuel : 2 ≤ fuel) :
    ∀ (evs : List (Ev M)) (s : Latest M) (k : Nat),
      2 ≤ s.q.length → s.holds = List.replicate s.q.length 0 →
      ∃ obs, runEvs fuel evs s k = some obs ∧
        (∀ p ∈ obs, k ≤ p.1 ∧
          p.2 = (s.published :: evVals evs).getD (p.1 - k) default) ∧
        List.Chain' (fun a b : Nat × M => a.1 ≤ b.1) obs := by
  intro evs
  induction evs with
  | nil =>
    intro s k _ _
    exact ⟨[], rfl, by simp, List.chain'_nil⟩
  | cons e rest ih =>
    intro s k hcap hholds
    cases e with
    | set v =>
      obtain ⟨s', hset, hlen, hh, _, hpub⟩ := set_succeeds s fuel v hcap hholds hfuel
      obtain ⟨obs, hrun, hobs, hchain⟩ := ih s' (k + 1) (by omega)
        (by rw [hh, hlen, hholds])
      refine ⟨obs, ?_, ?_, hchain⟩
      · simp only [runEvs, hset]
        exact hrun
      · intro p hp
        obtain ⟨hk, hv⟩ := hobs p hp
        refine ⟨by omega, ?_⟩
        rw [hv]
        show (s'.published :: evVals rest).getD (p.1 - (k + 1)) default
          = (s.published :: (v :: evVals rest)).getD (p.1 - k) default
        have h2 : p.1 - k = (p.1 - (k + 1)) + 1 := by omega
        rw [h2, hpub]
        rfl
    | get =>
      obtain ⟨obs, hrun, hobs, hchain⟩ := ih s k hcap hholds
      refine ⟨(k, s.published) :: obs, ?_, ?_, ?_⟩
      · simp only [runEvs, hrun]
      · intro p hp
        rcases List.mem_cons.mp hp with hp1 | hp2
        · subst hp1
          refine ⟨Nat.le_refl k, ?_⟩
          show s.published = (s.published :: evVals rest).getD (k - k) default
          rw [Nat.sub_self]
          rfl
        · obtain ⟨hk, hv⟩ := hobs p hp2
          refine ⟨hk, ?_⟩
          rw [hv]
          rfl
      · rw [List.chain'_cons']
        refine ⟨?_, hchain⟩
        intro y hy
        exact (hobs y (List.mem_of_mem_head? hy)).1

/-! ### Claim theorems -/

/-- C1 (amended): `writer.set(value)` probes starting at
`(cursor + 1) mod cap`; on each failed exclusivity check the cursor
advances to the failed index and the probe retries from there; once
exclusive access succeeds at some index `i`, the slot at `i` is
overwritten in place with the new value and the published pointer is
replaced to reference slot `i`.  The cursor, however, advances only on
failed probes: a successful probe leaves it at its pre-probe value, so it
is not set to `i`. -/
theorem C1_set_algorithm {M : Type} (s : Latest M) (fuel : Nat) (msg : M) :
    s.set (fuel + 1) msg =
      if s.claimable s.nextIdx then
        some { s with q := s.q.set s.nextIdx msg, latest := s.nextIdx }
      else ({ s with index := s.nextIdx } : Latest M).set fuel msg := by
  unfold Latest.set
  rw [probe_succ]
  by_cases hc : s.claimable s.nextIdx
  · rw [if_pos hc, if_pos hc]
  · rw [if_neg hc, if_neg hc]

/-- C1 counterexample: capacity 3, fresh state (cursor 1, published slot
0).  `set 5` claims index 2 = (1 + 1) mod 3 on the first probe and
publishes it, but the cursor after the call is still 1, not the claimed
index 2 — refuting "the cursor is set to i". -/
theorem C1_cex :
    ((Latest.init 3 : Latest Nat).set 10 5).map Latest.index = some 1 ∧
      ((Latest.init 3 : Latest Nat).set 10 5).map Latest.latest = some 2 ∧
      (1 : Nat) ≠ 2 := by
  decide

/-- C2: a successful `set` claims a slot whose strong reference count was
exactly 1 (it is not the slot the published pointer references and no
reader snapshot reference to it is live), mutates only that slot, and
leaves every other slot's value untouched. -/
theorem C2_exclusive_claim {M : Type} [Inhabited M] (s : Latest M) (fuel : Nat)
    (msg : M) (s1 : Latest M) (h : s.set fuel msg = some s1) :
    s.refcount s1.latest = 1 ∧
      ∀ j, j ≠ s1.latest → s1.q.getD j default = s.q.getD j default := by
  obtain ⟨idx, s', hp, hs1⟩ := set_spec s fuel msg s1 h
  obtain ⟨hq, hlat, hh, hcl⟩ := probe_spec fuel s s' idx hp
  have hlatest : s1.latest = idx := by rw [hs1]
  constructor
  · rw [hlatest]
    exact beq_iff_eq.mp hcl
  · intro j hj
    rw [hlatest] at hj
    rw [hs1]
    show (s'.q.set idx msg).getD j default = s.q.getD j default
    rw [aux_getD_set_ne s'.q idx j msg default (Ne.symm hj), hq]

/-- C2 witness: capacity 3, `set 5` from the fresh state claims slot 2
(reference count 1) and leaves slot 0 unchanged. -/
theorem C2_witness :
    (Latest.init 3 : Latest Nat).refcount
        ({ q := [0, 0, 5], latest := 2, index := 1, holds := [0, 0, 0] } : Latest Nat).latest
        = 1 ∧
      ({ q := [0, 0, 5], latest := 2, index := 1, holds := [0, 0, 0] } : Latest Nat).q.getD 0 default
        = (Latest.init 3 : Latest Nat).q.getD 0 default := by
  have h := C2_exclusive_claim (Latest.init 3) 10 5
    { q := [0, 0, 5], latest := 2, index := 1, holds := [0, 0, 0] } (by decide)
  exact ⟨h.1, h.2 0 (by decide)⟩

/-- C3: for every capacity at least 2, after a completed sequence of `set`
calls with no interleaved reads (fuel of 2 probes per call suffices since
no reader holds a snapshot), `reader.get()` returns exactly the last value
written. -/
theorem C3_last_value_wins {M : Type} [Inhabited M] (cap fuel : Nat)
    (hcap : 2 ≤ cap) (hfuel : 2 ≤ fuel) (msgs : List M) (v : M) :
    ∃ s1, Latest.runSets fuel (Latest.init cap) (msgs ++ [v]) = some s1 ∧
      LatestReader.get (some s1) = some v := by
  have hlen : (Latest.init cap : Latest M).q.length = cap :=
    List.length_replicate cap default
  obtain ⟨s1, hrun, hpub⟩ := runSets_spec fuel hfuel msgs v (Latest.init cap)
    (by rw [hlen]; exact hcap) (by rw [hlen]; rfl)
  refine ⟨s1, hrun, ?_⟩
  show some s1.published = some v
  rw [hpub]

/-- C3 witness: capacity 3; after `set 1; set 2; set 3` the reader gets 3,
and after a further `set 4` it gets 4. -/
theorem C3_witness :
    (∃ s1, Latest.runSets 2 (Latest.init 3 : Latest Nat) ([1, 2] ++ [3]) = some s1 ∧
        LatestReader.get (some s1) = some 3) ∧
      ∃ s1, Latest.runSets 2 (Latest.init 3 : Latest Nat) ([1, 2, 3] ++ [4]) = some s1 ∧
        LatestReader.get (some s1) = some 4 :=
  ⟨C3_last_value_wins 3 2 (by decide) (by decide) [1, 2] 3,
    C3_last_value_wins 3 2 (by decide) (by decide) [1, 2, 3] 4⟩

/-- C4: a single reader polling while the single writer publishes the
scheduled values in order observes, at each `get`, the latest published
value (index 0 standing for the initial default), and the publish indices
of successive observations never decrease: the reader never observes an
earlier-published value after a later-published one (skipping values is
permitted, and no observation is absent while the writer lives). -/
theorem C4_monotone_reads {M : Type} [Inhabited M] (cap fuel : Nat)
    (hcap : 2 ≤ cap) (hfuel : 2 ≤ fuel) (evs : List (Ev M)) :
    ∃ obs, runEvs fuel evs (Latest.init cap) 0 = some obs ∧
      List.Chain' (fun a b : Nat × M => a.1 ≤ b.1) obs ∧
      ∀ p ∈ obs, p.2 = ((default : M) :: evVals evs).getD p.1 default := by
  have hlen : (Latest.init cap : Latest M).q.length = cap :=
    List.length_replicate cap default
  obtain ⟨obs, hrun, hobs, hchain⟩ := runEvs_spec fuel hfuel evs (Latest.init cap) 0
    (by rw [hlen]; exact hcap) (by rw [hlen]; rfl)
  refine ⟨obs, hrun, hchain, ?_⟩
  intro p hp
  have h2 := (hobs p hp).2
  have hpubinit : (Latest.init cap : Latest M).published = (default : M) := by
    show (List.replicate cap (default : M)).getD 0 default = default
    rw [aux_getD_replicate]
    split <;> rfl
  rw [h2, hpubinit, Nat.sub_zero]

/-- C4 witness: capacity 2 with schedule publish 10, read, publish 20,
read. -/
theorem C4_witness :
    ∃ obs, runEvs 2 [Ev.set 10, Ev.get, Ev.set 20, Ev.get] (Latest.init 2 : Latest Nat) 0
        = some obs ∧
      List.Chain' (fun a b : Nat × Nat => a.1 ≤ b.1) obs ∧
      ∀ p ∈ obs,
        p.2 = ((default : Nat) :: evVals [Ev.set 10, Ev.get, Ev.set 20, Ev.get]).getD p.1 default :=
  C4_monotone_reads 2 2 (by decide) (by decide) [Ev.set 10, Ev.get, Ev.set 20, Ev.get]

/-- C5: `reader.get()` returns the absence value exactly when the writer
no longer exists (the weak upgrade fails); while the writer is alive,
`get` returns a clone of the currently published value — never absence and
never a stale cached value, the reader holding nothing but the weak
reference. -/
theorem C5_absent_iff_writer_dropped {M : Type} [Inhabited M]
    (writer : Option (Latest M)) :
    (LatestReader.get writer = none ↔ writer = none) ∧
      ∀ s, writer = some s → LatestReader.get writer = some s.published := by
  cases writer with
  | none =>
    refine ⟨by simp [LatestReader.get], ?_⟩
    intro s h
    cases h
  | some s0 =>
    refine ⟨by simp [LatestReader.get], ?_⟩
    intro s h
    have hs : s0 = s := Option.some_injective _ h
    rw [hs]
    rfl

/-- C5 witness: at capacity 2 a live writer yields the published value and
a dropped writer yields the absence value. -/
theorem C5_witness :
    LatestReader.get (some (Latest.init 2 : Latest Nat))
        = some (Latest.init 2 : Latest Nat).published ∧
      (LatestReader.get (none : Option (Latest Nat)) = none ↔
        (none : Option (Latest Nat)) = none) :=
  ⟨(C5_absent_iff_writer_dropped (some (Latest.init 2))).2 (Latest.init 2) rfl,
    (C5_absent_iff_writer_dropped (none : Option (Latest Nat))).1⟩

/-- C6 (amended): with debug assertions enabled, `Latest::new` fails the
capacity assertion for any capacity below 2; for any capacity of at least
2, construction succeeds in either build mode and returns the writer.  In
a release build the assertion is compiled out, so capacity 1 constructs
successfully there (see the counterexample). -/
theorem C6_construction (dbg : Bool) (cap : Nat) :
    (cap < 2 → Latest.new (M := Nat) true cap
        = Except.error ConstructionError.invalidCapacity) ∧
      (2 ≤ cap → Latest.new (M := Nat) dbg cap = Except.ok (Latest.init cap)) := by
  constructor
  · intro h
    have hd : decide (cap < 2) = true := decide_eq_true h
    simp [Latest.new, hd]
  · intro h
    have hd : decide (cap < 2) = false := decide_eq_false (by omega)
    have h0 : (cap == 0) = false := by
      rw [beq_eq_false_iff_ne]
      omega
    simp [Latest.new, hd, h0]

/-- C6 counterexample: in a release build (debug assertions compiled out)
construction with capacity 1 does not fail: it succeeds and returns a
writer, refuting "construct with any capacity < 2 fails at construction
time". -/
theorem C6_cex :
    Latest.new (M := Nat) false 1 = Except.ok (Latest.init 1) := rfl

/-- C6 witness: capacity 1 in a debug build fails with the invalid
capacity error; capacity 7 in a release build constructs. -/
theorem C6_witness :
    Latest.new (M := Nat) true 1 = Except.error ConstructionError.invalidCapacity ∧
      Latest.new (M := Nat) false 7 = Except.ok (Latest.init 7) :=
  ⟨(C6_construction true 1).1 (by decide), (C6_construction false 7).2 (by decide)⟩

/-- C7 (amended): when the capacity is at least the number of distinct
reader-held slots plus two (one probe-proof slot beyond the held ones and
the published one), `set` always completes, within at most `cap` probe
attempts. -/
theorem C7_liveness {M : Type} (s : Latest M) (msg : M)
    (hheld : s.heldSlots + 2 ≤ s.q.length) :
    ∃ s1, s.set s.q.length msg = some s1 := by
  obtain ⟨i, hi, hci⟩ := exists_claimable s hheld
  obtain ⟨k, hk1, hk2, hk3⟩ := exists_step_to s.q.length i s.index (by omega) hi
  obtain ⟨r, hr⟩ := probe_reaches s.q.length k s hk1 hk2 (by rw [hk3]; exact hci)
  obtain ⟨idx, s'⟩ := r
  refine ⟨{ s' with q := s'.q.set idx msg, latest := idx }, ?_⟩
  unfold Latest.set
  rw [hr]

/-- C7 witness: capacity 3 with one reader-held slot (1 + 2 ≤ 3): `set`
completes within 3 probes. -/
theorem C7_witness :
    ∃ s1, ((Latest.init 3 : Latest Nat).holdSnapshot).set
        ((Latest.init 3 : Latest Nat).holdSnapshot).q.length 7 = some s1 :=
  C7_liveness ((Latest.init 3 : Latest Nat).holdSnapshot) 7 (by decide)

/-- C7 counterexample: capacity 2 with one reader-held snapshot satisfies
the claim's premise capacity ≥ holds + 1, yet `set` livelocks.  From the
fresh capacity-2 state a reader holds a snapshot of published slot 0 and
the writer publishes once, routing to slot 1; the next `set` then finds
slot 1 published and slot 0 still held, and fails even after 100 probes —
far beyond the claimed bound of cap = 2 probe attempts. -/
theorem C7_cex :
    ((Latest.init 2 : Latest Nat).holdSnapshot).set 2 5
        = some { q := [0, 5], latest := 1, index := 0, holds := [1, 0] } ∧
      ({ q := [0, 5], latest := 1, index := 0, holds := [1, 0] } : Latest Nat).heldSlots + 1 ≤ 2 ∧
      ({ q := [0, 5], latest := 1, index := 0, holds := [1, 0] } : Latest Nat).set 100 7
        = none := by
  decide

/-- C8: a successful `set` never claims a slot with a live reader-side
reference: the writer routes around it, so the value stored in a held slot
(of which the reader's returned clone is an independent copy) is unchanged
and the new publish does not reference that slot. -/
theorem C8_route_around {M : Type} [Inhabited M] (s : Latest M) (fuel : Nat)
    (msg : M) (s1 : Latest M) (j : Nat) (hset : s.set fuel msg = some s1)
    (hheld : s.holds.getD j 0 ≠ 0) :
    s1.latest ≠ j ∧ s1.q.getD j default = s.q.getD j default := by
  obtain ⟨idx, s', hp, hs1⟩ := set_spec s fuel msg s1 hset
  obtain ⟨hq, hlat, hh, hcl⟩ := probe_spec fuel s s' idx hp
  have hz := ((claimable_iff s idx).mp hcl).2
  have hne : idx ≠ j := fun he => hheld (he ▸ hz)
  have hlatest : s1.latest = idx := by rw [hs1]
  refine ⟨by rw [hlatest]; exact hne, ?_⟩
  rw [hs1]
  show (s'.q.set idx msg).getD j default = s.q.getD j default
  rw [aux_getD_set_ne s'.q idx j msg default hne, hq]

/-- C8 witness: capacity 2; the reader holds a snapshot of published slot
0 and one additional `set 5` runs: the writer routes to slot 1 and the
held slot 0 keeps its value. -/
theorem C8_witness :
    ({ q := [0, 5], latest := 1, index := 0, holds := [1, 0] } : Latest Nat).latest ≠ 0 ∧
      ({ q := [0, 5], latest := 1, index := 0, holds := [1, 0] } : Latest Nat).q.getD 0 default
        = ((Latest.init 2 : Latest Nat).holdSnapshot).q.getD 0 default :=
  C8_route_around ((Latest.init 2 : Latest Nat).holdSnapshot) 2 5
    { q := [0, 5], latest := 1, index := 0, holds := [1, 0] } 0 (by decide) (by decide)

/-- C9: for every valid capacity (at least 2), a reader created from the
writer before any `set` call observes the default-constructed value. -/
theorem C9_initial_default {M : Type} [Inhabited M] (cap : Nat) (hcap : 2 ≤ cap) :
    LatestReader.get (some (Latest.init cap : Latest M)) = some (default : M) := by
  show some ((List.replicate cap (default : M)).getD 0 default) = some (default : M)
  rw [aux_getD_replicate, if_pos (by omega)]

/-- C9 witness: at capacity 2 the fresh reader observes the default
value. -/
theorem C9_witness :
    LatestReader.get (some (Latest.init 2 : Latest Nat)) = some (default : Nat) :=
  C9_initial_default 2 (by decide)

lemma probe_cap1_stuck {M : Type} :
    ∀ (fuel : Nat) (s : Latest M), s.q.length = 1 → s.latest = 0 →
      Latest.probe fuel s = none := by
  intro fuel
  induction fuel with
  | zero => intro s _ _; rfl
  | succ f ih =>
    intro s h1 h0
    have hidx : s.nextIdx = 0 := by
      unfold Latest.nextIdx
      rw [h1, Nat.mod_one]
    have hcnot : ¬ (s.claimable s.nextIdx = true) := by
      rw [hidx]
      intro hcl
      exact ((claimable_iff s 0).mp hcl).1 h0
    rw [probe_succ, if_neg hcnot]
    exact ih _ h1 h0

/-- C10: with the capacity check compiled out (release build),
construction with capacity 1 succeeds and returns a writer whose published
pointer references the single slot; that slot then always has strong
reference count 2 (pool + published pointer), so the exclusivity check
fails on every probe, the probe index cycles over the single index 0
forever, and the first `set` never terminates: it exhausts every probe
budget. -/
theorem C10_capacity_one_livelock :
    Latest.new (M := Nat) false 1 = Except.ok (Latest.init 1) ∧
      (Latest.init 1 : Latest Nat).latest = 0 ∧
      (Latest.init 1 : Latest Nat).refcount 0 = 2 ∧
      ∀ (fuel : Nat) (msg : Nat), (Latest.init 1 : Latest Nat).set fuel msg = none := by
  refine ⟨rfl, rfl, by decide, ?_⟩
  intro fuel msg
  unfold Latest.set
  rw [probe_cap1_stuck fuel (Latest.init 1) (by decide) rfl]
